import Mathlib

/-!
Verification development for the `error_type!` code generator of the
`error-type` crate (`src/lib.rs`).

The generator is a compile-time macro pipeline:

* `error_type_var_body` (the clause accumulator) scans a variant's clause
  block one clause at a time, threading four slots (display, description,
  cause, conversions) through the scan;
* `error_type_var_body_emit` (the emitter) turns the final slot values into
  the per-variant implementations: a display contribution, a description
  contribution, a cause contribution and the extra `From` conversions;
* `error_type_impl` ties the per-variant parts together into the enum-wide
  `From`, `Display` and `Error` implementations plus the capability traits;
* `error_type` is the top-level driver.

User-supplied Rust expressions inside clauses are opaque token trees to the
macro; the emitted code gives them meaning by binding the payload (and the
formatter) to the declared names and evaluating the expression.  The
embedding therefore carries each clause expression as its denotation: a
function of the payload value.  Payload values are modelled by `ErrVal`,
which records what the payload's own `Display`, `Error::description` and
`Error::cause` implementations return.
-/

/-- A payload value: what a variant's payload denotes at runtime.  It
carries the text its `Display` implementation writes, the string its
`Error::description` method returns, and the optional underlying error its
`Error::cause` method returns. -/
inductive ErrVal : Type where
  | mk : String → String → Option ErrVal → ErrVal

/-- The text the payload's own `Display` implementation writes. -/
def ErrVal.display : ErrVal → String
  | .mk d _ _ => d

/-- The string the payload's own `Error::description` returns. -/
def ErrVal.description : ErrVal → String
  | .mk _ d _ => d

/-- The underlying error the payload's own `Error::cause` returns. -/
def ErrVal.cause : ErrVal → Option ErrVal
  | .mk _ _ c => c

/-- Result of a formatting call: models
`::std::result::Result<(), ::std::fmt::Error>` together with the text
written to the formatter on success. -/
abbrev FmtResult := Except Unit String

/-- A value of the generated enum: the index of the variant holding the
value, together with the payload stored in that variant. -/
abbrev EnumVal := Nat × ErrVal

/-- A custom display clause `disp (arg, fmtArg) expr;`: the two binder
names and the denotation of `expr` (the payload is bound to `arg`, the
formatter to `fmtArg`; the expression writes text and yields a formatting
result). -/
structure DispClause where
  arg : String
  fmtArg : String
  fn : ErrVal → FmtResult

/-- A custom description clause `desc (arg) expr;`: the binder name and the
denotation of `expr` (a string computed from the payload bound to `arg`). -/
structure DescClause where
  arg : String
  fn : ErrVal → String

/-- A custom cause clause `cause (arg) expr;`: the binder name and the
denotation of `expr` (an optional error computed from the payload bound to
`arg`). -/
structure CauseClause where
  arg : String
  fn : ErrVal → Option ErrVal

/-- A conversion clause `from (arg: SrcTy) expr;`: the binder name, the
source type (kept as text), and the denotation of `expr` (the payload
value built from the source value bound to `arg`). -/
structure FromClause where
  arg : String
  srcTy : String
  fn : ErrVal → ErrVal

/-- One clause of a variant body, as written in the source.  The first five
constructors are the five shapes the accumulator recognises
(`disp (a, f) e;`, `desc (a) e;`, `cause (a) e;`, `cause;`,
`from (a: T) e;`).  The last three model the token sequences `disp ();`,
`desc ();` and `cause ();`, which can be written in a variant body but
match none of the accumulator's rules (the empty-parenthesis forms exist
only inside the emitter's internal protocol). -/
inductive Clause : Type where
  | disp : DispClause → Clause
  | desc : DescClause → Clause
  | cause : CauseClause → Clause
  | causeShort : Clause
  | fromConv : FromClause → Clause
  | dispUnit : Clause
  | descUnit : Clause
  | causeUnit : Clause

/-- The clause the `cause;` shorthand is rewritten to by the accumulator:
`((e) ::std::error::Error::cause(e))`, i.e. binder `e` and the payload's
own cause lookup. -/
def causeShorthandClause : CauseClause :=
  { arg := "e", fn := ErrVal.cause }

/-- The accumulator state threaded through `error_type_var_body`: the
`$disp`, `$desc`, `$cause` and `$from` token-tree slots.  `none`
corresponds to the unset sentinel `()`. -/
structure AccState where
  disp : Option DispClause
  desc : Option DescClause
  cause : Option CauseClause
  froms : List FromClause

/-- The initial accumulator state `(), (), (), ()` passed by
`error_type_impl`. -/
def initAcc : AccState :=
  { disp := none, desc := none, cause := none, froms := [] }

/-- The clause accumulator `error_type_var_body` from `src/lib.rs`
(lines 261–376).  Each recognised clause overwrites (or, for `from`,
prepends to) its slot and the accumulator recurses on the tail; `cause;`
is rewritten to `((e) ::std::error::Error::cause(e))`; the two `from`
rules distinguish an empty slot from a non-empty one; when the clause
block is exhausted the final state is handed on.  A clause shape matched
by no rule makes the whole expansion fail, modelled by `none`. -/
def error_type_var_body (st : AccState) : List Clause → Option AccState
  | [] => some st
  | Clause.disp c :: tl =>
      error_type_var_body { st with disp := some c } tl
  | Clause.desc c :: tl =>
      error_type_var_body { st with desc := some c } tl
  | Clause.cause c :: tl =>
      error_type_var_body { st with cause := some c } tl
  | Clause.causeShort :: tl =>
      error_type_var_body { st with cause := some causeShorthandClause } tl
  | Clause.fromConv c :: tl =>
      match st.froms with
      | [] => error_type_var_body { st with froms := [c] } tl
      | f :: fs => error_type_var_body { st with froms := c :: f :: fs } tl
  | Clause.dispUnit :: _ => none
  | Clause.descUnit :: _ => none
  | Clause.causeUnit :: _ => none

/-- The per-variant implementations produced by the emitter: the
`error_fmt`, `error_desc` and `error_cause` methods of the capability-trait
implementations for `(&Enum, &Payload)`, and the extra `From`
implementations (source type plus conversion into an enum value). -/
structure Emitted where
  errorFmt : ErrVal → FmtResult
  errorDesc : ErrVal → String
  errorCause : ErrVal → Option ErrVal
  fromImpls : List (String × (ErrVal → EnumVal))

/-- The emitter `error_type_var_body_emit` from `src/lib.rs`
(lines 109–257), applied to a variant's final accumulator state:
an unset display slot (`disp ()`) delegates to the payload's own
`Display`; an unset description slot (`desc ()`) delegates to the
payload's own `Error::description`; an unset cause slot (`cause ()`)
always returns `None`; a set slot binds the payload to the declared name
and evaluates the clause expression; each accumulated `from` clause
becomes a `From<SrcTy>` implementation wrapping the expression's result
in this variant (`$err_name::$var_name($cl_expr)`), emitted in the order
the accumulated list holds them. -/
def error_type_var_body_emit (varIdx : Nat) (st : AccState) : Emitted where
  errorFmt :=
    match st.disp with
    | none => fun p => Except.ok p.display
    | some c => c.fn
  errorDesc :=
    match st.desc with
    | none => fun p => p.description
    | some c => c.fn
  errorCause :=
    match st.cause with
    | none => fun _ => none
    | some c => c.fn
  fromImpls := st.froms.map fun c => (c.srcTy, fun s => (varIdx, c.fn s))

/-- One declared variant: its name, its payload type (kept as text) and its
clause block. -/
structure Variant where
  name : String
  payloadTy : String
  body : List Clause

/-- A full `error_type!` input: the enum name and its variant list. -/
structure ErrorEnum where
  name : String
  variants : List Variant

/-- Runs the clause accumulator on every variant body, in declaration
order; any failing body fails the whole invocation. -/
def resolveAll : List Variant → Option (List AccState)
  | [] => some []
  | v :: vs =>
      match error_type_var_body initAcc v.body, resolveAll vs with
      | some st, some sts => some (st :: sts)
      | _, _ => none

/-- The enum-wide expansion produced by `error_type_impl`
(`src/lib.rs` lines 380–447): one unconditional `From<Payload>` per
variant, the `Display` implementation dispatching by variant, the
`Error::description` and `Error::cause` implementations dispatching by
variant, the three emitted capability-trait declarations, and the extra
`From` implementations collected from every variant body. -/
structure Expansion where
  bareFroms : List (ErrVal → EnumVal)
  display : EnumVal → FmtResult
  description : EnumVal → String
  cause : EnumVal → Option ErrVal
  traits : List String
  extraFroms : List (String × (ErrVal → EnumVal))

/-- `error_type_impl` from `src/lib.rs` (lines 380–447): resolves every
variant body, then emits the unconditional bare-payload `From` for each
variant (`fn from(value) { Enum::Variant(value) }`), the enum-wide
dispatch functions (each matching on the variant and calling that
variant's emitted contribution), the capability traits `ErrorDisplay`,
`ErrorDescription`, `ErrorCause` (fixed names, lines 406–416), and the
per-variant extra conversions in variant order. -/
def error_type_impl (e : ErrorEnum) : Option Expansion :=
  (resolveAll e.variants).map fun rs =>
    { bareFroms := (List.range e.variants.length).map fun i =>
        fun value => ((i, value) : EnumVal)
      display := fun ev =>
        match rs[ev.1]? with
        | some st => (error_type_var_body_emit ev.1 st).errorFmt ev.2
        | none => Except.ok ""
      description := fun ev =>
        match rs[ev.1]? with
        | some st => (error_type_var_body_emit ev.1 st).errorDesc ev.2
        | none => ""
      cause := fun ev =>
        match rs[ev.1]? with
        | some st => (error_type_var_body_emit ev.1 st).errorCause ev.2
        | none => none
      traits := ["ErrorDisplay", "ErrorDescription", "ErrorCause"]
      extraFroms :=
        (rs.enum.map fun p => (error_type_var_body_emit p.1 p.2).fromImpls).flatten }

/-- The bare enum declaration re-emitted by `error_type_as_item`:
visibility, enum name, and the variants reduced to `name(Type)`. -/
structure EnumDecl where
  isPub : Bool
  declName : String
  declVariants : List (String × String)

/-- The full output of one `error_type!` invocation: the enum declaration
plus the implementations. -/
structure TopExpansion where
  decl : EnumDecl
  impls : Expansion

/-- The top-level driver `error_type` from `src/lib.rs` (lines 454–499):
accepts the `pub enum` and `enum` forms, requires at least one variant
(the grammar uses a one-or-more repetition), re-emits the bare enum via
`error_type_as_item` and runs `error_type_impl`. -/
def error_type (isPub : Bool) (e : ErrorEnum) : Option TopExpansion :=
  match e.variants with
  | [] => none
  | _ :: _ =>
      (error_type_impl e).map fun x =>
        { decl :=
            { isPub := isPub
              declName := e.name
              declVariants := e.variants.map fun v => (v.name, v.payloadTy) }
          impls := x }

/-- Modelled from the spec: the extended driver's trailing-invocation form
is part of the second generator generation, which is not present under
`src/` (only the first generation is).  Per §4.4 and §2 of the spec, the
extended driver accepts multiple consecutive enum definitions in a single
top-level invocation "by recursing on the remainder after completing the
first enum"; a single definition is the base case, and an empty invocation
matches no rule. -/
def error_type_ext : List (Bool × ErrorEnum) → Option (List TopExpansion)
  | [] => none
  | [(p, e)] => (error_type p e).map fun t => [t]
  | (p, e) :: rest =>
      match error_type p e, error_type_ext rest with
      | some t, some ts => some (t :: ts)
      | _, _ => none

/-- Pattern-matching a variant back out of an enum value: `match` on the
variant with index `i`, yielding the payload when the value is of that
variant. -/
def matchVariant (ev : EnumVal) (i : Nat) : Option ErrVal :=
  if ev.1 = i then some ev.2 else none

/-- The slot update a single recognised clause performs on the
accumulator state (the rewriting step of one `error_type_var_body`
rule).  Unrecognised shapes leave the state unchanged; they are only
reached on inputs on which the accumulator fails. -/
def clauseStep (st : AccState) (c : Clause) : AccState :=
  match c with
  | .disp d => { st with disp := some d }
  | .desc d => { st with desc := some d }
  | .cause d => { st with cause := some d }
  | .causeShort => { st with cause := some causeShorthandClause }
  | .fromConv f => { st with froms := f :: st.froms }
  | .dispUnit => st
  | .descUnit => st
  | .causeUnit => st

/-- Whether a clause shape is matched by some accumulator rule. -/
def Clause.ok : Clause → Bool
  | .dispUnit => false
  | .descUnit => false
  | .causeUnit => false
  | _ => true

/-- The display clause a source clause contributes to the display slot. -/
def dispOf : Clause → Option DispClause
  | .disp d => some d
  | _ => none

/-- The description clause a source clause contributes to the description
slot. -/
def descOf : Clause → Option DescClause
  | .desc d => some d
  | _ => none

/-- The cause clause a source clause contributes to the cause slot;
`cause;` contributes its rewriting `((e) ::std::error::Error::cause(e))`. -/
def causeOf : Clause → Option CauseClause
  | .cause d => some d
  | .causeShort => some causeShorthandClause
  | _ => none

/-- The conversion clause a source clause contributes to the conversion
list. -/
def fromOf : Clause → Option FromClause
  | .fromConv f => some f
  | _ => none

theorem error_type_var_body_eq_foldl (l : List Clause) :
    ∀ st : AccState, (∀ c ∈ l, c.ok) →
      error_type_var_body st l = some (l.foldl clauseStep st) := by
  induction l with
  | nil => intro st _; rfl
  | cons c tl ih =>
      intro st h
      have hc : c.ok := h c (List.mem_cons_self c tl)
      have htl : ∀ c ∈ tl, c.ok := fun x hx => h x (List.mem_cons_of_mem c hx)
      cases c with
      | disp d => simpa [error_type_var_body, clauseStep] using ih _ htl
      | desc d => simpa [error_type_var_body, clauseStep] using ih _ htl
      | cause d => simpa [error_type_var_body, clauseStep] using ih _ htl
      | causeShort => simpa [error_type_var_body, clauseStep] using ih _ htl
      | fromConv f =>
          cases hf : st.froms with
          | nil =>
              have : { st with froms := [f] } = clauseStep st (Clause.fromConv f) := by
                simp [clauseStep, hf]
              simpa [error_type_var_body, hf, this] using ih _ htl
          | cons g gs =>
              have : { st with froms := f :: g :: gs }
                  = clauseStep st (Clause.fromConv f) := by
                simp [clauseStep, hf]
              simpa [error_type_var_body, hf, this] using ih _ htl
      | dispUnit => simp [Clause.ok] at hc
      | descUnit => simp [Clause.ok] at hc
      | causeUnit => simp [Clause.ok] at hc

theorem error_type_var_body_inv (l : List Clause) :
    ∀ st s : AccState, error_type_var_body st l = some s →
      (∀ c ∈ l, c.ok) ∧ s = l.foldl clauseStep st := by
  induction l with
  | nil =>
      intro st s h
      refine ⟨by simp, ?_⟩
      simpa [error_type_var_body] using (Option.some.inj h).symm
  | cons c tl ih =>
      intro st s h
      cases c with
      | disp d =>
          have h' := ih _ _ (by simpa [error_type_var_body] using h)
          exact ⟨by simpa [Clause.ok] using h'.1, by simpa [clauseStep] using h'.2⟩
      | desc d =>
          have h' := ih _ _ (by simpa [error_type_var_body] using h)
          exact ⟨by simpa [Clause.ok] using h'.1, by simpa [clauseStep] using h'.2⟩
      | cause d =>
          have h' := ih _ _ (by simpa [error_type_var_body] using h)
          exact ⟨by simpa [Clause.ok] using h'.1, by simpa [clauseStep] using h'.2⟩
      | causeShort =>
          have h' := ih _ _ (by simpa [error_type_var_body] using h)
          exact ⟨by simpa [Clause.ok] using h'.1, by simpa [clauseStep] using h'.2⟩
      | fromConv f =>
          cases hf : st.froms with
          | nil =>
              have h' := ih _ _ (by simpa [error_type_var_body, hf] using h)
              have hst : ({ st with froms := [f] } : AccState)
                  = clauseStep st (Clause.fromConv f) := by simp [clauseStep, hf]
              exact ⟨by simpa [Clause.ok] using h'.1, by rw [List.foldl_cons, ← hst]; exact h'.2⟩
          | cons g gs =>
              have h' := ih _ _ (by simpa [error_type_var_body, hf] using h)
              have hst : ({ st with froms := f :: g :: gs } : AccState)
                  = clauseStep st (Clause.fromConv f) := by simp [clauseStep, hf]
              exact ⟨by simpa [Clause.ok] using h'.1, by rw [List.foldl_cons, ← hst]; exact h'.2⟩
      | dispUnit => simp [error_type_var_body] at h
      | descUnit => simp [error_type_var_body] at h
      | causeUnit => simp [error_type_var_body] at h

theorem foldl_clauseStep_disp (l : List Clause) :
    ∀ st : AccState, (l.foldl clauseStep st).disp
      = (l.filterMap dispOf).foldl (fun _ a => some a) st.disp := by
  induction l with
  | nil => intro st; rfl
  | cons c tl ih =>
      intro st
      cases c <;> simp [clauseStep, dispOf, ih]

theorem foldl_clauseStep_desc (l : List Clause) :
    ∀ st : AccState, (l.foldl clauseStep st).desc
      = (l.filterMap descOf).foldl (fun _ a => some a) st.desc := by
  induction l with
  | nil => intro st; rfl
  | cons c tl ih =>
      intro st
      cases c <;> simp [clauseStep, descOf, ih]

theorem foldl_clauseStep_cause (l : List Clause) :
    ∀ st : AccState, (l.foldl clauseStep st).cause
      = (l.filterMap causeOf).foldl (fun _ a => some a) st.cause := by
  induction l with
  | nil => intro st; rfl
  | cons c tl ih =>
      intro st
      cases c <;> simp [clauseStep, causeOf, ih]

theorem foldl_clauseStep_froms (l : List Clause) :
    ∀ st : AccState, (l.foldl clauseStep st).froms
      = (l.filterMap fromOf).reverse ++ st.froms := by
  induction l with
  | nil => intro st; simp
  | cons c tl ih =>
      intro st
      cases c <;> simp [clauseStep, fromOf, ih]

theorem foldl_replace_eq_getLast_or {α : Type} (xs : List α) :
    ∀ o : Option α, xs.foldl (fun _ a => some a) o = xs.getLast?.or o := by
  induction xs with
  | nil => intro o; rfl
  | cons a xs ih =>
      intro o
      cases xs with
      | nil => simp
      | cons b ys =>
          rw [List.foldl_cons, ih, List.getLast?_cons_cons]
          obtain ⟨x, hx⟩ := Option.isSome_iff_exists.1
            (List.getLast?_isSome.2 (List.cons_ne_nil b ys))
          rw [hx]
          rfl

theorem perm_eq_of_length_le_one {α : Type} {l1 l2 : List α}
    (p : l1.Perm l2) (h : l1.length ≤ 1) : l1 = l2 := by
  match l1, h with
  | [], _ => exact (p.symm.eq_nil).symm
  | [a], _ => exact (List.perm_singleton.1 p.symm).symm

/-- Sample custom display clause used in concrete instantiations. -/
def sampleDisp : DispClause :=
  { arg := "e", fmtArg := "fmt", fn := fun p => Except.ok p.display }

/-- Sample custom description clause used in concrete instantiations. -/
def sampleDesc : DescClause :=
  { arg := "e", fn := fun p => p.description }

/-- Sample custom cause clause returning the payload itself. -/
def sampleCause : CauseClause :=
  { arg := "e", fn := fun x => some x }

/-- Sample conversion clause from a static string slice. -/
def sampleFromA : FromClause :=
  { arg := "s", srcTy := "StaticStr", fn := fun s => s }

/-- Sample conversion clause from an owned string. -/
def sampleFromB : FromClause :=
  { arg := "s", srcTy := "OwnedString", fn := fun s => s }

/-- Sample payload carrying a non-trivial underlying cause. -/
def samplePayload : ErrVal :=
  .mk "oh no" "outer failure" (some (.mk "io" "inner io failure" none))

/-- Sample accumulator result for the body `desc (e) ...; from (s: ...) ...;`. -/
def sampleState1 : AccState :=
  { disp := none, desc := some sampleDesc, cause := none, froms := [sampleFromA] }

/-- C1: for a variant's clause block satisfying the ClauseSet invariant —
at most one display clause, at most one description clause, at most one
cause or cause-shorthand clause — running the clause accumulator on any
permutation of the clause sequence yields the same resolved ClauseSet:
the same display strategy, description strategy and cause strategy and
the same conversion set; consequently the emitted display, description
and cause behaviour is identical for every clause order. -/
theorem clause_accumulator_order_independent
    (l1 l2 : List Clause) (hp : l1.Perm l2)
    (hd : (l1.filterMap dispOf).length ≤ 1)
    (hds : (l1.filterMap descOf).length ≤ 1)
    (hc : (l1.filterMap causeOf).length ≤ 1)
    (s1 : AccState) (h1 : error_type_var_body initAcc l1 = some s1) :
    ∃ s2 : AccState, error_type_var_body initAcc l2 = some s2 ∧
      s1.disp = s2.disp ∧ s1.desc = s2.desc ∧ s1.cause = s2.cause ∧
      (s1.froms : Multiset FromClause) = (s2.froms : Multiset FromClause) ∧
      ∀ i : Nat,
        (error_type_var_body_emit i s1).errorFmt
            = (error_type_var_body_emit i s2).errorFmt ∧
        (error_type_var_body_emit i s1).errorDesc
            = (error_type_var_body_emit i s2).errorDesc ∧
        (error_type_var_body_emit i s1).errorCause
            = (error_type_var_body_emit i s2).errorCause := by
  obtain ⟨hok1, hs1⟩ := error_type_var_body_inv l1 initAcc s1 h1
  have hok2 : ∀ c ∈ l2, c.ok := fun c hcm => hok1 c (hp.mem_iff.2 hcm)
  have hdisp : l1.filterMap dispOf = l2.filterMap dispOf :=
    perm_eq_of_length_le_one (hp.filterMap dispOf) hd
  have hdesc : l1.filterMap descOf = l2.filterMap descOf :=
    perm_eq_of_length_le_one (hp.filterMap descOf) hds
  have hcause : l1.filterMap causeOf = l2.filterMap causeOf :=
    perm_eq_of_length_le_one (hp.filterMap causeOf) hc
  refine ⟨l2.foldl clauseStep initAcc, error_type_var_body_eq_foldl l2 initAcc hok2,
    ?_, ?_, ?_, ?_, ?_⟩
  · rw [hs1, foldl_clauseStep_disp, foldl_clauseStep_disp, hdisp]
  · rw [hs1, foldl_clauseStep_desc, foldl_clauseStep_desc, hdesc]
  · rw [hs1, foldl_clauseStep_cause, foldl_clauseStep_cause, hcause]
  · rw [hs1, foldl_clauseStep_froms, foldl_clauseStep_froms]
    simp only [initAcc, List.append_nil]
    rw [Multiset.coe_reverse, Multiset.coe_reverse]
    exact Multiset.coe_eq_coe.2 (hp.filterMap fromOf)
  · intro i
    have hfmt : ∀ (s : AccState),
        (error_type_var_body_emit i s).errorFmt
          = match s.disp with
            | none => fun p => Except.ok p.display
            | some c => c.fn := fun _ => rfl
    have hde : ∀ (s : AccState),
        (error_type_var_body_emit i s).errorDesc
          = match s.desc with
            | none => fun p => p.description
            | some c => c.fn := fun _ => rfl
    have hca : ∀ (s : AccState),
        (error_type_var_body_emit i s).errorCause
          = match s.cause with
            | none => fun _ => none
            | some c => c.fn := fun _ => rfl
    refine ⟨?_, ?_, ?_⟩
    · rw [hfmt, hfmt, hs1, foldl_clauseStep_disp, foldl_clauseStep_disp, hdisp]
    · rw [hde, hde, hs1, foldl_clauseStep_desc, foldl_clauseStep_desc, hdesc]
    · rw [hca, hca, hs1, foldl_clauseStep_cause, foldl_clauseStep_cause, hcause]

/-- Witness for C1: a concrete body `desc ...; from ...;` permuted to
`from ...; desc ...;` resolves to the same ClauseSet. -/
theorem clause_accumulator_order_independent_witness :
    ∃ s2 : AccState,
      error_type_var_body initAcc
          [Clause.fromConv sampleFromA, Clause.desc sampleDesc] = some s2 ∧
      sampleState1.disp = s2.disp ∧ sampleState1.desc = s2.desc ∧
      sampleState1.cause = s2.cause ∧
      (sampleState1.froms : Multiset FromClause) = (s2.froms : Multiset FromClause) ∧
      ∀ i : Nat,
        (error_type_var_body_emit i sampleState1).errorFmt
            = (error_type_var_body_emit i s2).errorFmt ∧
        (error_type_var_body_emit i sampleState1).errorDesc
            = (error_type_var_body_emit i s2).errorDesc ∧
        (error_type_var_body_emit i sampleState1).errorCause
            = (error_type_var_body_emit i s2).errorCause :=
  clause_accumulator_order_independent
    [Clause.desc sampleDesc, Clause.fromConv sampleFromA]
    [Clause.fromConv sampleFromA, Clause.desc sampleDesc]
    (List.Perm.swap (Clause.fromConv sampleFromA) (Clause.desc sampleDesc) [])
    (by decide) (by decide) (by decide) sampleState1 rfl

/-- C4 counterexample: a variant body with two description clauses is NOT
rejected — the accumulator produces a resolved state in which only the
second clause survives (the two clauses are distinct: their binder names
differ). -/
theorem duplicate_clause_not_rejected_counterexample :
    error_type_var_body initAcc
        [Clause.desc { arg := "a", fn := fun p => p.description },
         Clause.desc { arg := "b", fn := fun _ => "boom" }]
      = some { disp := none,
               desc := some { arg := "b", fn := fun _ => "boom" },
               cause := none, froms := [] } ∧
    ({ arg := "b", fn := fun _ => "boom" } : DescClause).arg
      ≠ ({ arg := "a", fn := fun p => p.description } : DescClause).arg :=
  ⟨rfl, by decide⟩

/-- C4 amended: duplicate non-accumulating clauses are not rejected; every
recognised clause shape keeps the accumulator running, each
non-accumulating clause overwrites its slot, and resolution ends with the
LAST clause of each non-accumulating kind in the slot, the earlier
duplicates silently dropped. -/
theorem duplicate_clause_last_wins
    (l : List Clause) (s : AccState)
    (h : error_type_var_body initAcc l = some s) :
    s.disp = (l.filterMap dispOf).getLast? ∧
    s.desc = (l.filterMap descOf).getLast? ∧
    s.cause = (l.filterMap causeOf).getLast? := by
  obtain ⟨_, hs⟩ := error_type_var_body_inv l initAcc s h
  subst hs
  refine ⟨?_, ?_, ?_⟩
  · rw [foldl_clauseStep_disp, foldl_replace_eq_getLast_or]
    simp [initAcc]
  · rw [foldl_clauseStep_desc, foldl_replace_eq_getLast_or]
    simp [initAcc]
  · rw [foldl_clauseStep_cause, foldl_replace_eq_getLast_or]
    simp [initAcc]

/-- Witness for the amended C4: on a concrete body with two cause clauses
the resolved cause slot is the last one written. -/
theorem duplicate_clause_last_wins_witness :
    ({ disp := none, desc := none, cause := some sampleCause, froms := [] }
        : AccState).cause
      = ([Clause.cause { arg := "x", fn := fun _ => none },
          Clause.cause sampleCause].filterMap causeOf).getLast? :=
  (duplicate_clause_last_wins
    [Clause.cause { arg := "x", fn := fun _ => none }, Clause.cause sampleCause]
    { disp := none, desc := none, cause := some sampleCause, froms := [] }
    rfl).2.2

/-- C5 counterexample: the clause accumulator does not accept the
`desc ();` shorthand inside a variant body — no accumulator rule matches
it, so the expansion fails. -/
theorem desc_empty_shorthand_counterexample :
    error_type_var_body initAcc [Clause.descUnit] = none := rfl

/-- C5 amended: the variant-body grammar REJECTS the `desc ();` shorthand
(an occurrence at the head of the remaining clause sequence fails the
expansion from any accumulator state); delegation to the payload's own
description is instead the default behaviour of a variant whose
description slot was never set — the emitter's internal `desc ()` form. -/
theorem desc_empty_shorthand_amended :
    (∀ (st : AccState) (tl : List Clause),
        error_type_var_body st (Clause.descUnit :: tl) = none) ∧
    (∀ i : Nat,
        (error_type_var_body_emit i initAcc).errorDesc
          = fun p => p.description) :=
  ⟨fun _ _ => rfl, fun _ => rfl⟩

/-- C6 counterexample: two conversion clauses written `StaticStr` first,
`OwnedString` second are accumulated, and then emitted, `OwnedString`
first — the reverse of the order they were written in. -/
theorem conversion_order_counterexample :
    ((error_type_var_body initAcc
        [Clause.fromConv sampleFromA, Clause.fromConv sampleFromB]).map
          fun st => (error_type_var_body_emit 0 st).fromImpls.map Prod.fst)
      = some [sampleFromB.srcTy, sampleFromA.srcTy] ∧
    [sampleFromB.srcTy, sampleFromA.srcTy]
      ≠ [sampleFromA.srcTy, sampleFromB.srcTy] :=
  ⟨rfl, by decide⟩

/-- C6 amended: the conversion accumulator PREPENDS each `from` clause to
the list, so the accumulated ConversionList — and with it the emission
order of the extra conversion implementations — is the reverse of the
order the clauses were written in the variant body (still deterministic;
not semantically observable). -/
theorem conversion_list_reversed
    (l : List Clause) (s : AccState) (i : Nat)
    (h : error_type_var_body initAcc l = some s) :
    s.froms = (l.filterMap fromOf).reverse ∧
    (error_type_var_body_emit i s).fromImpls
      = ((l.filterMap fromOf).reverse).map
          fun c => (c.srcTy, fun v => ((i, c.fn v) : EnumVal)) := by
  obtain ⟨_, hs⟩ := error_type_var_body_inv l initAcc s h
  subst hs
  have hf : (l.foldl clauseStep initAcc).froms = (l.filterMap fromOf).reverse := by
    rw [foldl_clauseStep_froms]
    simp [initAcc]
  refine ⟨hf, ?_⟩
  have he : ∀ (s' : AccState),
      (error_type_var_body_emit i s').fromImpls
        = s'.froms.map fun c => (c.srcTy, fun v => ((i, c.fn v) : EnumVal)) :=
    fun _ => rfl
  rw [he, hf]

/-- Witness for the amended C6: the concrete two-conversion body resolves
to the reversed list. -/
theorem conversion_list_reversed_witness :
    ({ disp := none, desc := none, cause := none,
       froms := [sampleFromB, sampleFromA] } : AccState).froms
      = ([Clause.fromConv sampleFromA,
          Clause.fromConv sampleFromB].filterMap fromOf).reverse :=
  (conversion_list_reversed
    [Clause.fromConv sampleFromA, Clause.fromConv sampleFromB]
    { disp := none, desc := none, cause := none,
      froms := [sampleFromB, sampleFromA] }
    0 rfl).1

/-- C7: once the clause block is exhausted, every slot not set by a clause
receives its default — an unset display slot delegates to the payload's
own display, an unset description slot delegates to the payload's own
description, an unset cause slot always returns absent, and with no
conversion clause the conversion list is empty (so no extra `From`
implementations are emitted); moreover a variant with no `desc` clause
behaves identically to the same variant with an explicit clause
delegating to the payload's description appended. -/
theorem unset_slots_get_defaults
    (l : List Clause) (s : AccState) (i : Nat)
    (h : error_type_var_body initAcc l = some s) :
    (l.filterMap dispOf = [] →
        (error_type_var_body_emit i s).errorFmt
          = fun p => Except.ok p.display) ∧
    (l.filterMap descOf = [] →
        (error_type_var_body_emit i s).errorDesc = fun p => p.description) ∧
    (l.filterMap causeOf = [] →
        (error_type_var_body_emit i s).errorCause = fun _ => none) ∧
    (l.filterMap fromOf = [] →
        s.froms = [] ∧ (error_type_var_body_emit i s).fromImpls = []) ∧
    (l.filterMap descOf = [] →
        ∃ s' : AccState,
          error_type_var_body initAcc
              (l ++ [Clause.desc { arg := "e", fn := fun p => p.description }])
            = some s' ∧
          (error_type_var_body_emit i s').errorDesc
            = (error_type_var_body_emit i s).errorDesc) := by
  obtain ⟨hok, hs⟩ := error_type_var_body_inv l initAcc s h
  have hdisp := foldl_clauseStep_disp l initAcc
  have hdesc := foldl_clauseStep_desc l initAcc
  have hcause := foldl_clauseStep_cause l initAcc
  have hfroms := foldl_clauseStep_froms l initAcc
  refine ⟨?_, ?_, ?_, ?_, ?_⟩
  · intro hnil
    have : s.disp = none := by rw [hs, hdisp, hnil]; rfl
    show (match s.disp with
          | none => fun p => Except.ok p.display
          | some c => c.fn)
        = fun p => Except.ok p.display
    rw [this]
  · intro hnil
    have : s.desc = none := by rw [hs, hdesc, hnil]; rfl
    show (match s.desc with
          | none => fun p => p.description
          | some c => c.fn)
        = fun p => p.description
    rw [this]
  · intro hnil
    have : s.cause = none := by rw [hs, hcause, hnil]; rfl
    show (match s.cause with
          | none => fun _ => none
          | some c => c.fn)
        = fun _ => none
    rw [this]
  · intro hnil
    have hf : s.froms = [] := by
      rw [hs, hfroms, hnil]
      simp [initAcc]
    refine ⟨hf, ?_⟩
    show s.froms.map _ = []
    rw [hf]
    rfl
  · intro hnil
    have hsd : s.desc = none := by rw [hs, hdesc, hnil]; rfl
    have hok' : ∀ c ∈ l ++ [Clause.desc { arg := "e", fn := fun p => p.description }],
        c.ok := by
      intro c hcm
      rcases List.mem_append.1 hcm with hcm | hcm
      · exact hok c hcm
      · rcases List.mem_singleton.1 hcm with rfl
        rfl
    refine ⟨(l ++ [Clause.desc { arg := "e", fn := fun p => p.description }]).foldl
        clauseStep initAcc,
      error_type_var_body_eq_foldl _ initAcc hok', ?_⟩
    have hs' : ((l ++ [Clause.desc { arg := "e", fn := fun p => p.description }]).foldl
          clauseStep initAcc).desc
        = some { arg := "e", fn := fun p => p.description } := by
      rw [List.foldl_append]
      rfl
    show (match ((l ++ [Clause.desc { arg := "e", fn := fun p => p.description }]).foldl
            clauseStep initAcc).desc with
          | none => fun p : ErrVal => p.description
          | some c => c.fn)
        = match s.desc with
          | none => fun p : ErrVal => p.description
          | some c => c.fn
    rw [hs', hsd]

/-- Witness for C7: a body containing only a custom display clause leaves
the description slot unset, and the emitted description delegates to the
payload's own description. -/
theorem unset_slots_get_defaults_witness :
    (error_type_var_body_emit 0
        { disp := some sampleDisp, desc := none, cause := none, froms := [] }).errorDesc
      = fun p => p.description :=
  (unset_slots_get_defaults [Clause.disp sampleDisp]
    { disp := some sampleDisp, desc := none, cause := none, froms := [] }
    0 rfl).2.1 rfl

theorem resolveAll_get (vs : List Variant) :
    ∀ rs : List AccState, resolveAll vs = some rs →
      ∀ (i : Nat) (v : Variant), vs[i]? = some v →
        ∃ st, rs[i]? = some st ∧ error_type_var_body initAcc v.body = some st := by
  induction vs with
  | nil => intro rs _ i v hv; simp at hv
  | cons w ws ih =>
      intro rs h i v hv
      cases hw : error_type_var_body initAcc w.body with
      | none => simp [resolveAll, hw] at h
      | some st0 =>
          cases hws : resolveAll ws with
          | none => simp [resolveAll, hw, hws] at h
          | some sts =>
              have hrs : rs = st0 :: sts := by
                simp [resolveAll, hw, hws] at h
                exact h.symm
              subst hrs
              cases i with
              | zero =>
                  have hv' : w = v := by simpa using hv
                  subst hv'
                  exact ⟨st0, by simp, hw⟩
              | succ n =>
                  have hv' : ws[n]? = some v := by simpa using hv
                  obtain ⟨st, hg, ha⟩ := ih sts hws n v hv'
                  exact ⟨st, by simpa using hg, ha⟩

theorem ErrVal.cause_ne_self (p : ErrVal) : p.cause ≠ some p := by
  cases p with
  | mk d ds c =>
      intro h
      simp only [ErrVal.cause] at h
      have hsz := congrArg sizeOf h
      simp only [Option.some.sizeOf_spec, ErrVal.mk.sizeOf_spec] at hsz
      omega

/-- C2: for a variant whose only cause-kind clause is the `cause;`
shorthand, the generated enum-wide cause lookup returns exactly the result
of the payload's own cause lookup — the payload's underlying cause, and
never the payload itself; and for a variant whose only cause-kind clause
is a custom cause clause whose expression returns the payload itself, the
generated cause lookup returns the payload itself. -/
theorem cause_shorthand_semantics
    (e : ErrorEnum) (x : Expansion) (he : error_type_impl e = some x)
    (i : Nat) (v : Variant) (hv : e.variants[i]? = some v) (p : ErrVal) :
    (v.body.filterMap causeOf = [causeShorthandClause] →
        x.cause (i, p) = p.cause ∧ x.cause (i, p) ≠ some p) ∧
    (∀ a : String,
        v.body.filterMap causeOf = [{ arg := a, fn := fun y => some y }] →
        x.cause (i, p) = some p) := by
  cases hr : resolveAll e.variants with
  | none =>
      unfold error_type_impl at he
      rw [hr] at he
      simp at he
  | some rs =>
      unfold error_type_impl at he
      rw [hr] at he
      simp only [Option.map_some'] at he
      have hx := Option.some.inj he
      obtain ⟨st, hst, hacc⟩ := resolveAll_get e.variants rs hr i v hv
      obtain ⟨_, hs⟩ := error_type_var_body_inv _ _ _ hacc
      have hcause : st.cause = (v.body.filterMap causeOf).getLast?.or none := by
        rw [hs, foldl_clauseStep_cause, foldl_replace_eq_getLast_or]
        rfl
      have hxc : x.cause (i, p)
          = (error_type_var_body_emit i st).errorCause p := by
        rw [← hx]
        show (match rs[i]? with
              | some st' => (error_type_var_body_emit i st').errorCause p
              | none => none)
            = (error_type_var_body_emit i st).errorCause p
        rw [hst]
      constructor
      · intro hone
        have hcs : st.cause = some causeShorthandClause := by
          rw [hcause, hone]
          rfl
        have : (error_type_var_body_emit i st).errorCause p = p.cause := by
          show (match st.cause with
                | none => fun _ => none
                | some c => c.fn) p = p.cause
          rw [hcs]
          rfl
        rw [hxc, this]
        exact ⟨rfl, ErrVal.cause_ne_self p⟩
      · intro a hone
        have hcs : st.cause = some { arg := a, fn := fun y => some y } := by
          rw [hcause, hone]
          rfl
        have : (error_type_var_body_emit i st).errorCause p = some p := by
          show (match st.cause with
                | none => fun _ => none
                | some c => c.fn) p = some p
          rw [hcs]
        rw [hxc, this]

/-- The concrete invocation used as a witness input: an `Io` variant using
the `cause;` shorthand and an `Other` variant whose custom cause clause
returns the payload itself. -/
def sampleEnumIo : ErrorEnum :=
  { name := "AppError"
    variants :=
      [ { name := "Io", payloadTy := "IoError", body := [Clause.causeShort] },
        { name := "Other", payloadTy := "BoxedError",
          body := [Clause.cause sampleCause] } ] }

/-- Witness for C2: on the concrete enum, the `Io` variant's cause lookup
returns the payload's underlying cause (not the payload), and the `Other`
variant's cause lookup returns the payload itself. -/
theorem cause_shorthand_semantics_witness :
    ∃ x : Expansion, error_type_impl sampleEnumIo = some x ∧
      x.cause (0, samplePayload) = samplePayload.cause ∧
      x.cause (0, samplePayload) ≠ some samplePayload ∧
      x.cause (1, samplePayload) = some samplePayload := by
  have hs : (error_type_impl sampleEnumIo).isSome = true := rfl
  refine ⟨(error_type_impl sampleEnumIo).get hs, (Option.some_get hs).symm, ?_, ?_, ?_⟩
  · exact ((cause_shorthand_semantics sampleEnumIo _ (Option.some_get hs).symm 0
      { name := "Io", payloadTy := "IoError", body := [Clause.causeShort] } rfl
      samplePayload).1 rfl).1
  · exact ((cause_shorthand_semantics sampleEnumIo _ (Option.some_get hs).symm 0
      { name := "Io", payloadTy := "IoError", body := [Clause.causeShort] } rfl
      samplePayload).1 rfl).2
  · exact (cause_shorthand_semantics sampleEnumIo _ (Option.some_get hs).symm 1
      { name := "Other", payloadTy := "BoxedError",
        body := [Clause.cause sampleCause] } rfl
      samplePayload).2 "e" rfl

/-- C3: for every variant of every successfully expanded enum, regardless
of the clauses it carries, the expansion contains the unconditional
conversion from a bare value of the variant's payload type; it wraps the
value in that variant unchanged, and pattern-matching that variant back
out of the constructed enum value yields the original payload. -/
theorem bare_payload_round_trip
    (e : ErrorEnum) (x : Expansion) (he : error_type_impl e = some x)
    (i : Nat) (hi : i < e.variants.length) (value : ErrVal) :
    ∃ f : ErrVal → EnumVal, x.bareFroms[i]? = some f ∧
      f value = (i, value) ∧ matchVariant (f value) i = some value := by
  cases hr : resolveAll e.variants with
  | none =>
      unfold error_type_impl at he
      rw [hr] at he
      simp at he
  | some rs =>
      unfold error_type_impl at he
      rw [hr] at he
      simp only [Option.map_some'] at he
      have hx := Option.some.inj he
      refine ⟨fun value => (i, value), ?_, rfl, by simp [matchVariant]⟩
      rw [← hx]
      show ((List.range e.variants.length).map
          fun i => fun value => ((i, value) : EnumVal))[i]? = _
      rw [List.getElem?_map, List.getElem?_range hi]
      rfl

/-- Witness for C3: on the concrete enum the `Io` variant's bare-payload
conversion round-trips a concrete payload. -/
theorem bare_payload_round_trip_witness :
    ∃ x : Expansion, error_type_impl sampleEnumIo = some x ∧
      ∃ f : ErrVal → EnumVal, x.bareFroms[0]? = some f ∧
        f samplePayload = (0, samplePayload) ∧
        matchVariant (f samplePayload) 0 = some samplePayload := by
  have hs : (error_type_impl sampleEnumIo).isSome = true := rfl
  exact ⟨(error_type_impl sampleEnumIo).get hs, (Option.some_get hs).symm,
    bare_payload_round_trip sampleEnumIo _ (Option.some_get hs).symm 0
      (by decide) samplePayload⟩

theorem error_type_ext_length :
    ∀ (es : List (Bool × ErrorEnum)) (ts : List TopExpansion),
      error_type_ext es = some ts → ts.length = es.length
  | [], ts => by simp [error_type_ext]
  | [(p, e)], ts => by
      cases h : error_type p e with
      | none => simp [error_type_ext, h]
      | some t =>
          simp only [error_type_ext, h, Option.map_some', Option.some.injEq]
          intro hts
          rw [← hts]
          rfl
  | (p, e) :: (q, f) :: rest, ts => by
      cases h1 : error_type p e with
      | none => simp [error_type_ext, h1]
      | some t =>
          cases h2 : error_type_ext ((q, f) :: rest) with
          | none => simp [error_type_ext, h1, h2]
          | some us =>
              have hl := error_type_ext_length ((q, f) :: rest) us h2
              simp only [error_type_ext, h1, h2, Option.some.injEq]
              intro hts
              rw [← hts]
              simp [hl]

/-- C8 (modelled from the spec, §4.4): the extended driver accepts an
invocation holding multiple consecutive enum definitions — after
completing the first enum it recurses on the remaining input, and a
successful expansion covers every definition in the invocation (the
output has one expansion per input definition, the head being the first
enum's expansion). -/
theorem error_type_ext_expands_all
    (p : Bool) (e : ErrorEnum) (rest : List (Bool × ErrorEnum))
    (hne : rest ≠ []) :
    (∀ (t : TopExpansion) (us : List TopExpansion),
        error_type p e = some t → error_type_ext rest = some us →
        error_type_ext ((p, e) :: rest) = some (t :: us)) ∧
    (∀ ts : List TopExpansion, error_type_ext ((p, e) :: rest) = some ts →
        ∃ t us, ts = t :: us ∧ error_type p e = some t ∧
          error_type_ext rest = some us ∧ us.length = rest.length) := by
  cases rest with
  | nil => exact absurd rfl hne
  | cons qf rest' =>
      obtain ⟨q, f⟩ := qf
      constructor
      · intro t us h1 h2
        show (match error_type p e, error_type_ext ((q, f) :: rest') with
              | some t, some ts => some (t :: ts)
              | _, _ => none)
            = some (t :: us)
        rw [h1, h2]
      · intro ts hts
        have hts' : (match error_type p e, error_type_ext ((q, f) :: rest') with
              | some t, some ts => some (t :: ts)
              | _, _ => none)
            = some ts := hts
        cases h1 : error_type p e with
        | none => rw [h1] at hts'; exact absurd hts' (by simp)
        | some t =>
            cases h2 : error_type_ext ((q, f) :: rest') with
            | none => rw [h1, h2] at hts'; exact absurd hts' (by simp)
            | some us =>
                rw [h1, h2] at hts'
                refine ⟨t, us, (Option.some.inj hts').symm, rfl, rfl, ?_⟩
                exact error_type_ext_length ((q, f) :: rest') us h2

/-- A second concrete invocation input, used for multi-enum and collision
scenarios. -/
def sampleEnumMsg : ErrorEnum :=
  { name := "MsgError"
    variants :=
      [ { name := "Message", payloadTy := "CowStr",
          body := [Clause.desc sampleDesc, Clause.fromConv sampleFromA,
                   Clause.fromConv sampleFromB] } ] }

/-- Witness for C8: a concrete invocation holding two consecutive enum
definitions expands to the first enum's expansion followed by the
expansions of the remainder, and every definition is expanded. -/
theorem error_type_ext_expands_all_witness :
    ∃ ts : List TopExpansion,
      error_type_ext [(true, sampleEnumIo), (false, sampleEnumMsg)] = some ts ∧
      ts.length = 2 := by
  have h1 : (error_type true sampleEnumIo).isSome = true := rfl
  have h2 : (error_type_ext [(false, sampleEnumMsg)]).isSome = true := rfl
  have hmk := (error_type_ext_expands_all true sampleEnumIo
      [(false, sampleEnumMsg)] (List.cons_ne_nil _ _)).1
      ((error_type true sampleEnumIo).get h1)
      ((error_type_ext [(false, sampleEnumMsg)]).get h2)
      (Option.some_get h1).symm (Option.some_get h2).symm
  refine ⟨_, hmk, ?_⟩
  have hl := error_type_ext_length [(false, sampleEnumMsg)]
      ((error_type_ext [(false, sampleEnumMsg)]).get h2) (Option.some_get h2).symm
  simp [hl]

/-- C9 counterexample: two invocations with different enum names emit
identical capability-trait name lists (`ErrorDisplay`, `ErrorDescription`,
`ErrorCause`), so placing both invocations in the same scope defines the
same trait names twice — a collision. -/
theorem trait_name_collision_counterexample :
    (error_type_impl sampleEnumIo).map Expansion.traits
        = (error_type_impl sampleEnumMsg).map Expansion.traits ∧
    (error_type_impl sampleEnumIo).map Expansion.traits
        = some ["ErrorDisplay", "ErrorDescription", "ErrorCause"] ∧
    sampleEnumIo.name ≠ sampleEnumMsg.name :=
  ⟨rfl, rfl, by decide⟩

/-- C9 amended: the capability-trait names emitted by an invocation are
the fixed identifiers `ErrorDisplay`, `ErrorDescription` and `ErrorCause`,
independent of the invocation's input, so two invocations of the generator
in the same scope DO produce colliding trait definitions; a collision is
avoided only by placing the invocations in different modules. -/
theorem trait_names_fixed (e : ErrorEnum) (x : Expansion)
    (h : error_type_impl e = some x) :
    x.traits = ["ErrorDisplay", "ErrorDescription", "ErrorCause"] := by
  cases hr : resolveAll e.variants with
  | none =>
      unfold error_type_impl at h
      rw [hr] at h
      simp at h
  | some rs =>
      unfold error_type_impl at h
      rw [hr] at h
      simp only [Option.map_some'] at h
      rw [← Option.some.inj h]

/-- Witness for the amended C9: the concrete invocation's trait names are
the three fixed identifiers. -/
theorem trait_names_fixed_witness :
    ((error_type_impl sampleEnumIo).get (by rfl)).traits
      = ["ErrorDisplay", "ErrorDescription", "ErrorCause"] := by
  have hs : (error_type_impl sampleEnumIo).isSome = true := rfl
  exact trait_names_fixed sampleEnumIo ((error_type_impl sampleEnumIo).get hs)
    (Option.some_get hs).symm

/-- Whether a path is absolute, i.e. starts at the crate-root anchor `::`
and therefore cannot be captured by local bindings. -/
def isAbsolutePath (p : String) : Bool := p.take 2 == "::"

/-- A local shadowing environment of the invoking module: what an
unqualified name resolves to when the module shadows it, if anything. -/
abbrev ShadowEnv := String → Option String

/-- Name resolution as relevant to hygiene: an absolute path ignores the
module's local bindings; an unqualified name is captured by a local
shadowing binding when one exists. -/
def resolvePath (env : ShadowEnv) (p : String) : String :=
  if isAbsolutePath p then p else (env p).getD p

/-- The vocabulary of standard-library paths written by the generator. -/
def stdVocab : List String :=
  ["::std::fmt::Formatter", "::std::result::Result", "::std::fmt::Error",
   "::std::fmt::Display", "::std::error::Error", "::std::option::Option",
   "::std::convert::From"]

theorem stdVocab_absolute : ∀ p ∈ stdVocab, isAbsolutePath p = true := by
  decide

/-- The standard-library paths the per-variant emitter writes, rule by
rule of `error_type_var_body_emit` (`src/lib.rs` lines 109–257): the
display rules name the formatter and result types (and, for the unset
slot, `::std::fmt::Display`); the unset description slot names
`::std::error::Error`; both cause rules name `::std::option::Option` and
`::std::error::Error` in their signature; each conversion names
`::std::convert::From`. -/
def emitStdPaths (st : AccState) : List String :=
  (match st.disp with
   | none => ["::std::fmt::Formatter", "::std::result::Result",
              "::std::fmt::Error", "::std::fmt::Display"]
   | some _ => ["::std::fmt::Formatter", "::std::result::Result",
                "::std::fmt::Error"]) ++
  (match st.desc with
   | none => ["::std::error::Error"]
   | some _ => []) ++
  (match st.cause with
   | none => ["::std::option::Option", "::std::error::Error"]
   | some _ => ["::std::option::Option", "::std::error::Error"]) ++
  st.froms.map fun _ => "::std::convert::From"

/-- The standard-library paths the enum-level part of `error_type_impl`
writes (`src/lib.rs` lines 388–436), in emission order: the `Display`
implementation, the `ErrorDisplay` trait declaration, the `ErrorCause`
trait declaration, and the `Error` implementation with its `cause`
signature. -/
def implStdLits : List String :=
  ["::std::fmt::Display", "::std::fmt::Formatter", "::std::result::Result",
   "::std::fmt::Error",
   "::std::fmt::Formatter", "::std::result::Result", "::std::fmt::Error",
   "::std::option::Option", "::std::error::Error",
   "::std::error::Error", "::std::option::Option", "::std::error::Error"]

/-- Every standard-library path written by a successful expansion: one
`::std::convert::From` per variant (the unconditional conversions), the
enum-level implementations' paths, and each variant's emitted paths. -/
def error_type_impl_std_paths (e : ErrorEnum) : Option (List String) :=
  (resolveAll e.variants).map fun rs =>
    (e.variants.map fun _ => "::std::convert::From") ++
    implStdLits ++
    (rs.map emitStdPaths).flatten

theorem emitStdPaths_sub (st : AccState) : emitStdPaths st ⊆ stdVocab := by
  unfold emitStdPaths
  cases st.disp <;> cases st.desc <;> cases st.cause <;>
    · simp only [List.append_subset, List.nil_subset, true_and]
      repeat' apply And.intro
      all_goals
        first
          | decide
          | (intro q hq
             obtain ⟨c, _, hc⟩ := List.mem_map.1 hq
             rw [← hc]
             decide)

/-- C10: the expansion refers to all standard-library items only through
absolute `::std` paths, so every emitted reference resolves identically
under an arbitrary local shadowing of prelude names and under no
shadowing at all — the generated code's behaviour does not depend on the
invoking module's local bindings. -/
theorem std_paths_hygienic
    (e : ErrorEnum) (ps : List String)
    (h : error_type_impl_std_paths e = some ps)
    (p : String) (hp : p ∈ ps) (env : ShadowEnv) :
    resolvePath env p = resolvePath (fun _ => none) p ∧
    resolvePath env p = p := by
  have hvocab : p ∈ stdVocab := by
    cases hr : resolveAll e.variants with
    | none =>
        unfold error_type_impl_std_paths at h
        rw [hr] at h
        simp at h
    | some rs =>
        unfold error_type_impl_std_paths at h
        rw [hr] at h
        simp only [Option.map_some'] at h
        rw [← Option.some.inj h] at hp
        rcases List.mem_append.1 hp with hp | hp
        · rcases List.mem_append.1 hp with hp | hp
          · obtain ⟨v, _, hv⟩ := List.mem_map.1 hp
            rw [← hv]
            decide
          · exact (by decide : implStdLits ⊆ stdVocab) hp
        · obtain ⟨l, hl, hpl⟩ := List.mem_flatten.1 hp
          obtain ⟨st, _, hst⟩ := List.mem_map.1 hl
          rw [← hst] at hpl
          exact emitStdPaths_sub st hpl
  have habs : isAbsolutePath p = true := stdVocab_absolute p hvocab
  exact ⟨by simp [resolvePath, habs], by simp [resolvePath, habs]⟩

/-- Witness for C10: the emitted `::std::fmt::Display` reference of the
concrete invocation resolves the same under a shadowing environment as
under none. -/
theorem std_paths_hygienic_witness :
    resolvePath (fun _ => some "Shadowed") "::std::fmt::Display"
        = resolvePath (fun _ => none) "::std::fmt::Display" ∧
    resolvePath (fun _ => some "Shadowed") "::std::fmt::Display"
        = "::std::fmt::Display" := by
  have h : error_type_impl_std_paths sampleEnumIo
      = some ((error_type_impl_std_paths sampleEnumIo).getD []) := rfl
  have hp : "::std::fmt::Display"
      ∈ (error_type_impl_std_paths sampleEnumIo).getD [] := by decide
  exact std_paths_hygienic sampleEnumIo
    ((error_type_impl_std_paths sampleEnumIo).getD []) h "::std::fmt::Display" hp
    (fun _ => some "Shadowed")
